import Mathlib

/-!
Verification development for the unofficial-gospel-library-mcp server.

The TypeScript source is shallowly embedded below.  JavaScript strings are
modelled through their character lists (`String.data`), JavaScript numbers
that can be `NaN` are modelled as `Option Int` (`none` = `NaN`), and thrown
exceptions are modelled with `Except String`.  Each embedded definition keeps
the name of the source function it translates.
-/

/-! ## JavaScript primitive semantics -/

/-- Decimal digit test on code points (`'0'..'9'`). -/
def isDigitChar (c : Char) : Bool := 48 ≤ c.toNat && c.toNat ≤ 57

/-- Hexadecimal digit test on code points. -/
def isHexChar (c : Char) : Bool :=
  (48 ≤ c.toNat && c.toNat ≤ 57) || (97 ≤ c.toNat && c.toNat ≤ 102) ||
    (65 ≤ c.toNat && c.toNat ≤ 70)

/-- The ECMAScript whitespace class (`StrWhiteSpace`, also used by `trim` and
by the regex class `\s`): tab, LF, VT, FF, CR, space, NBSP, the Unicode
space separators, LS, PS, narrow no-break space, math space, ideographic
space and the BOM. -/
def jsWhitespace (c : Char) : Bool :=
  c.toNat = 9 || c.toNat = 10 || c.toNat = 11 || c.toNat = 12 || c.toNat = 13 ||
  c.toNat = 32 || c.toNat = 160 || c.toNat = 5760 ||
  (8192 ≤ c.toNat && c.toNat ≤ 8202) || c.toNat = 8232 || c.toNat = 8233 ||
  c.toNat = 8239 || c.toNat = 8287 || c.toNat = 12288 || c.toNat = 65279

/-- Value of a decimal digit list, most significant first. -/
def digitsToNat (ds : List Char) : Nat :=
  ds.foldl (fun a c => a * 10 + (c.toNat - 48)) 0

/-- Value of a hexadecimal digit list, most significant first. -/
def hexToNat (ds : List Char) : Nat :=
  ds.foldl
    (fun a c =>
      a * 16 +
        (if 97 ≤ c.toNat then c.toNat - 87
         else if 65 ≤ c.toNat then c.toNat - 55
         else c.toNat - 48))
    0

/-- Longest decimal-digit run at the head of the input; `none` when empty
(this is how `parseInt` produces `NaN`). -/
def parseDecRun (cs : List Char) : Option Nat :=
  let ds := cs.takeWhile isDigitChar
  if ds.isEmpty then none else some (digitsToNat ds)

/-- Longest hexadecimal-digit run at the head of the input. -/
def parseHexRun (cs : List Char) : Option Nat :=
  let ds := cs.takeWhile isHexChar
  if ds.isEmpty then none else some (hexToNat ds)

/-- Magnitude part of `parseInt` with no explicit radix: a `0x`/`0X` marker
selects base 16, otherwise base 10. -/
def parseIntRadix (cs : List Char) : Option Nat :=
  match cs with
  | c0 :: c1 :: rest =>
    if c0 = '0' && (c1 = 'x' || c1 = 'X') then parseHexRun rest
    else parseDecRun (c0 :: c1 :: rest)
  | _ => parseDecRun cs

/-- ECMAScript `parseInt(s)` (radix argument omitted): skip leading
whitespace, read an optional sign, then the longest digit run; `NaN`
(modelled as `none`) when no digit is found. -/
def jsParseInt (cs0 : List Char) : Option Int :=
  let cs := cs0.dropWhile jsWhitespace
  match cs with
  | [] => none
  | c :: rest =>
    if c = '-' then (parseIntRadix rest).map (fun n => -(n : Int))
    else if c = '+' then (parseIntRadix rest).map (fun n => (n : Int))
    else (parseIntRadix (c :: rest)).map (fun n => (n : Int))

/-- `String.prototype.split(sep)` for a one-character separator: split at
every occurrence; `n` separators yield `n+1` (possibly empty) pieces. -/
def splitOnChar (sep : Char) : List Char → List (List Char)
  | [] => [[]]
  | c :: cs =>
    let r := splitOnChar sep cs
    if c = sep then [] :: r
    else
      match r with
      | [] => [[c]]
      | h :: t => (c :: h) :: t

/-- Does `l` begin with `pat`? (helper for substring containment). -/
def startsWithSeq (pat l : List Char) : Bool :=
  match pat, l with
  | [], _ => true
  | _ :: _, [] => false
  | a :: as, b :: bs => a = b && startsWithSeq as bs

/-- `String.prototype.includes`: contiguous-substring containment, on
character lists. -/
def containsSeq (l pat : List Char) : Bool :=
  match l with
  | [] => pat.isEmpty
  | _ :: tl => startsWithSeq pat l || containsSeq tl pat

/-- `String.prototype.includes` on strings. -/
def jsIncludes (s pat : String) : Bool := containsSeq s.data pat.data

/-- `String.prototype.toLowerCase`, modelled as the locale-independent
simple case fold Lean provides per character. -/
def jsToLower (s : String) : String := ⟨s.data.map Char.toLower⟩

/-- `Array.prototype.slice(0, e)` where `e` may be `NaN` (`none`):
`ToIntegerOrInfinity(NaN) = 0`, a negative end counts from the end. -/
def sliceFromZero {α : Type} (l : List α) (e : Option Int) : List α :=
  match e with
  | none => []
  | some e => if e < 0 then l.take (l.length - (-e).toNat) else l.take e.toNat

/-- `Array.prototype.slice(-count)` where `count` may be `NaN` (`none`):
`slice(NaN)` starts at 0 and returns the whole array; for `count = 0` the
start index `-0` also converts to 0 (whole array); a positive `count` takes
the trailing `min(count, length)` elements. -/
def sliceNegFrom {α : Type} (l : List α) (count : Option Int) : List α :=
  match count with
  | none => l
  | some c =>
    if (0 : Int) < c then l.drop (l.length - c.toNat) else l.drop (-c).toNat

/-- JavaScript truthiness of an optional string argument: present and
non-empty. -/
def jsTruthyStr : Option String → Bool
  | none => false
  | some s => s ≠ ""

/-- JavaScript truthiness of an optional number argument: present and
non-zero. -/
def jsTruthyNum : Option Int → Bool
  | none => false
  | some n => n ≠ 0

/-- `x >= y` where `y` may be `NaN` (`none`): comparisons with `NaN` are
false. -/
def jsGeNum (x : Int) (y : Option Int) : Bool :=
  match y with
  | none => false
  | some y => y ≤ x

/-- `x <= y` where `y` may be `NaN` (`none`). -/
def jsLeNum (x : Int) (y : Option Int) : Bool :=
  match y with
  | none => false
  | some y => x ≤ y

/-! ## Data model -/

/-- An addressable scripture unit as the range resolver sees it: a `verse`
position and its `text`. -/
structure Verse where
  verse : Int
  text : String
deriving DecidableEq, Repr

/-- A paragraph item as built by `parseParagraphRange`
(`{ paragraph: i + 1, text: p }`). -/
structure ParaItem where
  paragraph : Int
  text : String
deriving DecidableEq, Repr

/-! ## parseVerseRange (src lines 40-69) -/

/-- `parseVerseRange(rangeStr, allVerses)`: resolves `"first:k"` / `"last:k"`
via `slice`, `"a-b"` via a position filter, a bare number via an equality
filter, and otherwise throws `Invalid verse range format`. -/
def parseVerseRange (rangeStr : String) (allVerses : List Verse) :
    Except String (List Verse) :=
  let colonResult : Option (List Verse) :=
    if rangeStr.data.contains ':' then
      let parts := splitOnChar ':' rangeStr.data
      let count := jsParseInt ((parts.drop 1).headD [])
      if parts.headD [] = "first".data then some (sliceFromZero allVerses count)
      else if parts.headD [] = "last".data then some (sliceNegFrom allVerses count)
      else none
    else none
  match colonResult with
  | some r => .ok r
  | none =>
    if rangeStr.data.contains '-' then
      let parts := splitOnChar '-' rangeStr.data
      let start := jsParseInt (parts.headD [])
      let stop := jsParseInt ((parts.drop 1).headD [])
      .ok (allVerses.filter (fun v => jsGeNum v.verse start && jsLeNum v.verse stop))
    else
      match jsParseInt rangeStr.data with
      | some verseNum => .ok (allVerses.filter (fun v => v.verse == verseNum))
      | none =>
        .error ("Invalid verse range format: " ++ rangeStr ++
          ". Use formats like \"7-10\", \"first:3\", or \"last:3\"")

/-- Pair each element with its 1-based position (`map((p, i) => ...)`). -/
def indexFrom {α : Type} (i : Int) : List α → List (Int × α)
  | [] => []
  | a :: as => (i, a) :: indexFrom (i + 1) as

/-! ## parseParagraphRange (src lines 465-483) -/

/-- `parseParagraphRange(rangeStr, paragraphs)`: builds 1-based
`{paragraph, text}` items, then applies the same range logic as
`parseVerseRange`. -/
def parseParagraphRange (rangeStr : String) (paragraphs : List String) :
    Except String (List ParaItem) :=
  let items : List ParaItem := (indexFrom 1 paragraphs).map (fun q => ⟨q.1, q.2⟩)
  let colonResult : Option (List ParaItem) :=
    if rangeStr.data.contains ':' then
      let parts := splitOnChar ':' rangeStr.data
      let count := jsParseInt ((parts.drop 1).headD [])
      if parts.headD [] = "first".data then some (sliceFromZero items count)
      else if parts.headD [] = "last".data then some (sliceNegFrom items count)
      else none
    else none
  match colonResult with
  | some r => .ok r
  | none =>
    if rangeStr.data.contains '-' then
      let parts := splitOnChar '-' rangeStr.data
      let start := jsParseInt (parts.headD [])
      let stop := jsParseInt ((parts.drop 1).headD [])
      .ok (items.filter (fun i => jsGeNum i.paragraph start && jsLeNum i.paragraph stop))
    else
      match jsParseInt rangeStr.data with
      | some num => .ok (items.filter (fun i => i.paragraph == num))
      | none => .error ("Invalid paragraph range format: " ++ rangeStr)

/-! ## Helper lemmas on the JS primitives -/

theorem contains_eq_true_of_mem {l : List Char} {c : Char} (h : c ∈ l) :
    l.contains c = true :=
  List.elem_iff.mpr h

theorem contains_eq_false_of_not_mem {l : List Char} {c : Char} (h : c ∉ l) :
    l.contains c = false := by
  cases hc : l.contains c with
  | false => rfl
  | true => exact absurd (List.elem_iff.mp hc) h

theorem digit_not_white {c : Char} (h : isDigitChar c = true) :
    jsWhitespace c = false := by
  simp only [isDigitChar, Bool.and_eq_true, decide_eq_true_eq] at h
  unfold jsWhitespace
  simp only [Bool.or_eq_false_iff, Bool.and_eq_false_iff, decide_eq_false_iff_not]
  omega

theorem not_mem_of_all_digits {sk : List Char} {c : Char}
    (h : sk.all isDigitChar = true) (hc : isDigitChar c = false) : c ∉ sk := by
  intro hm
  have := List.all_eq_true.mp h c hm
  rw [hc] at this
  exact Bool.noConfusion this

theorem takeWhile_of_all {p : Char → Bool} {l : List Char}
    (h : ∀ c ∈ l, p c = true) : l.takeWhile p = l := by
  induction l with
  | nil => rfl
  | cons a as ih =>
    simp [List.takeWhile_cons, h a (by simp), ih (fun c hc => h c (by simp [hc]))]

theorem filter_map_comm {α β : Type} (l : List α) (f : α → β) (p : β → Bool) :
    (l.map f).filter p = (l.filter (fun a => p (f a))).map f := by
  induction l with
  | nil => rfl
  | cons a as ih => by_cases h : p (f a) <;> simp [List.filter_cons, h, ih]

theorem splitOnChar_no_sep {sep : Char} {l : List Char} (h : sep ∉ l) :
    splitOnChar sep l = [l] := by
  induction l with
  | nil => rfl
  | cons c cs ih =>
    have hcs : sep ∉ cs := fun hm => h (List.mem_cons_of_mem _ hm)
    have hc : ¬ c = sep := fun he => h (he ▸ List.mem_cons_self _ _)
    simp [splitOnChar, ih hcs, hc]

theorem splitOnChar_append {sep : Char} {l₁ : List Char} (h : sep ∉ l₁)
    (l₂ : List Char) :
    splitOnChar sep (l₁ ++ sep :: l₂) = l₁ :: splitOnChar sep l₂ := by
  induction l₁ with
  | nil => simp [splitOnChar]
  | cons c cs ih =>
    have hcs : sep ∉ cs := fun hm => h (List.mem_cons_of_mem _ hm)
    have hc : ¬ c = sep := fun he => h (he ▸ List.mem_cons_self _ _)
    have hne := ih hcs
    simp only [List.cons_append, splitOnChar, hc, if_false]
    rw [show cs.append (sep :: l₂) = cs ++ sep :: l₂ from rfl, hne]

theorem parseIntRadix_digits {sk : List Char} (h1 : sk ≠ [])
    (h2 : sk.all isDigitChar = true) : parseIntRadix sk = some (digitsToNat sk) := by
  have hall : ∀ c ∈ sk, isDigitChar c = true := List.all_eq_true.mp h2
  have hdec : parseDecRun sk = some (digitsToNat sk) := by
    unfold parseDecRun
    rw [takeWhile_of_all hall]
    cases sk with
    | nil => exact absurd rfl h1
    | cons c cs => simp [List.isEmpty]
  unfold parseIntRadix
  match sk, h1 with
  | [c], _ => exact hdec
  | c0 :: c1 :: rest, _ =>
    have hc1 : isDigitChar c1 = true := hall c1 (by simp)
    have hx : ¬ c1 = 'x' := fun he => by rw [he] at hc1; exact Bool.noConfusion hc1
    have hX : ¬ c1 = 'X' := fun he => by rw [he] at hc1; exact Bool.noConfusion hc1
    simp only [hx, hX, decide_False, Bool.or_self, Bool.and_false, if_false]
    exact hdec

theorem jsParseInt_digits {sk : List Char} (h1 : sk ≠ [])
    (h2 : sk.all isDigitChar = true) :
    jsParseInt sk = some ((digitsToNat sk : Int)) := by
  have hall : ∀ c ∈ sk, isDigitChar c = true := List.all_eq_true.mp h2
  cases sk with
  | nil => exact absurd rfl h1
  | cons c cs =>
    have hc : isDigitChar c = true := hall c (by simp)
    have hw : jsWhitespace c = false := digit_not_white hc
    have hminus : ¬ c = '-' := fun he => by
      rw [he] at hc; exact Bool.noConfusion hc
    have hplus : ¬ c = '+' := fun he => by
      rw [he] at hc; exact Bool.noConfusion hc
    unfold jsParseInt
    rw [List.dropWhile_cons, hw]
    simp only [Bool.false_eq_true, if_false, hminus, hplus]
    rw [parseIntRadix_digits (by simp) h2]
    rfl

theorem jsParseInt_neg_digits {sk : List Char} (h1 : sk ≠ [])
    (h2 : sk.all isDigitChar = true) :
    jsParseInt ('-' :: sk) = some (-(digitsToNat sk : Int)) := by
  unfold jsParseInt
  rw [List.dropWhile_cons]
  simp only [show jsWhitespace '-' = false from rfl, Bool.false_eq_true, if_false,
    if_pos rfl]
  rw [parseIntRadix_digits h1 h2]
  rfl

/-! ## Branch evaluation lemmas for parseVerseRange -/

theorem string_data_mk (l : List Char) : (⟨l⟩ : String).data = l := rfl

theorem parseVerseRange_colon_first (sk : List Char) (hsk : ':' ∉ sk)
    (units : List Verse) :
    parseVerseRange ⟨"first:".data ++ sk⟩ units =
      .ok (sliceFromZero units (jsParseInt sk)) := by
  have hdecomp : "first:".data ++ sk = "first".data ++ ':' :: sk := by
    rw [show "first:".data = "first".data ++ [':'] from by decide]
    simp
  have hmem : (("first:".data ++ sk).contains ':') = true := by
    apply contains_eq_true_of_mem
    rw [hdecomp]; simp
  have hsplit : splitOnChar ':' ("first:".data ++ sk) = ["first".data, sk] := by
    rw [hdecomp, splitOnChar_append (by decide) sk, splitOnChar_no_sep hsk]
  unfold parseVerseRange
  simp only [string_data_mk]
  rw [hmem, if_pos rfl, hsplit]
  simp only [List.headD_cons, List.drop_succ_cons, List.drop_zero]
  simp

theorem parseVerseRange_colon_last (sk : List Char) (hsk : ':' ∉ sk)
    (units : List Verse) :
    parseVerseRange ⟨"last:".data ++ sk⟩ units =
      .ok (sliceNegFrom units (jsParseInt sk)) := by
  have hdecomp : "last:".data ++ sk = "last".data ++ ':' :: sk := by
    rw [show "last:".data = "last".data ++ [':'] from by decide]
    simp
  have hmem : (("last:".data ++ sk).contains ':') = true := by
    apply contains_eq_true_of_mem
    rw [hdecomp]; simp
  have hsplit : splitOnChar ':' ("last:".data ++ sk) = ["last".data, sk] := by
    rw [hdecomp, splitOnChar_append (by decide) sk, splitOnChar_no_sep hsk]
  unfold parseVerseRange
  simp only [string_data_mk]
  rw [hmem, if_pos rfl, hsplit]
  simp only [List.headD_cons, List.drop_succ_cons, List.drop_zero]
  simp

theorem parseVerseRange_hyphen (sa sb : List Char) (ha : '-' ∉ sa) (hb : '-' ∉ sb)
    (hca : ':' ∉ sa) (hcb : ':' ∉ sb) (units : List Verse) :
    parseVerseRange ⟨sa ++ '-' :: sb⟩ units =
      .ok (units.filter fun v =>
        jsGeNum v.verse (jsParseInt sa) && jsLeNum v.verse (jsParseInt sb)) := by
  have hcolon : ((sa ++ '-' :: sb).contains ':') = false := by
    apply contains_eq_false_of_not_mem
    intro hm
    rcases List.mem_append.mp hm with h | h
    · exact hca h
    · rcases List.mem_cons.mp h with h | h
      · exact absurd h (by decide)
      · exact hcb h
  have hmem : ((sa ++ '-' :: sb).contains '-') = true := by
    apply contains_eq_true_of_mem; simp
  have hsplit : splitOnChar '-' (sa ++ '-' :: sb) = [sa, sb] := by
    rw [splitOnChar_append ha sb, splitOnChar_no_sep hb]
  unfold parseVerseRange
  simp only [string_data_mk]
  rw [hcolon, if_neg (by simp), hmem, if_pos rfl, hsplit]
  simp only [List.headD_cons, List.drop_succ_cons, List.drop_zero]

theorem parseVerseRange_bare (sn : List Char) (h1 : ':' ∉ sn) (h2 : '-' ∉ sn)
    (units : List Verse) :
    parseVerseRange ⟨sn⟩ units =
      match jsParseInt sn with
      | some n => .ok (units.filter fun v => v.verse == n)
      | none =>
        .error ("Invalid verse range format: " ++ String.mk sn ++
          ". Use formats like \"7-10\", \"first:3\", or \"last:3\"") := by
  have hcolon : (sn.contains ':') = false := contains_eq_false_of_not_mem h1
  have hmem : (sn.contains '-') = false := contains_eq_false_of_not_mem h2
  unfold parseVerseRange
  simp only [string_data_mk]
  rw [hcolon, if_neg (by simp), hmem, if_neg (by simp)]

/-! ## Slice evaluation on concrete count shapes -/

theorem sliceFromZero_nat {α : Type} (l : List α) (k : Nat) :
    sliceFromZero l (some ((k : Int))) = l.take k := by
  simp only [sliceFromZero]
  rw [if_neg (by omega)]
  simp

theorem sliceNegFrom_pos {α : Type} (l : List α) (k : Nat) (hk : 1 ≤ k) :
    sliceNegFrom l (some ((k : Int))) = l.drop (l.length - k) := by
  simp only [sliceNegFrom]
  rw [if_pos (by omega)]
  simp

theorem sliceNegFrom_zero {α : Type} (l : List α) :
    sliceNegFrom l (some ((0 : Int))) = l := by
  simp only [sliceNegFrom]
  rw [if_neg (by omega)]
  simp

theorem sliceFromZero_negInt {α : Type} (l : List α) (m : Nat) (hm : 1 ≤ m) :
    sliceFromZero l (some (-(m : Int))) = l.take (l.length - m) := by
  simp only [sliceFromZero]
  rw [if_pos (by omega)]
  congr 1
  omega

theorem sliceNegFrom_negInt {α : Type} (l : List α) (m : Nat) (hm : 1 ≤ m) :
    sliceNegFrom l (some (-(m : Int))) = l.drop m := by
  simp only [sliceNegFrom]
  rw [if_neg (by omega)]
  congr 1
  omega

/-! ## Claim C1 -/

/-- C1 counterexample: the claim predicts that `"last:0"` returns the trailing
`min(0, 1) = 0` units, i.e. the empty sequence; `parseVerseRange` instead
returns the whole sequence, because `slice(-0)` starts at index `0`. -/
theorem c1_last_zero_counterexample :
    parseVerseRange "last:0" [⟨1, "a"⟩] = .ok [⟨1, "a"⟩] ∧
      parseVerseRange "last:0" [⟨1, "a"⟩] ≠ .ok [] := by
  refine ⟨rfl, ?_⟩
  intro h
  rw [show parseVerseRange "last:0" [⟨1, "a"⟩] = .ok [⟨1, "a"⟩] from rfl] at h
  injection h with h'
  exact List.noConfusion h'

/-- C1 (amended): for a decimal numeral `k` (digit list `sk`), `"first:k"`
returns the first `min(k, n)` units unchanged and in order; for `k ≥ 1`
`"last:k"` returns the trailing `min(k, n)` units unchanged and in order;
when `k ≥ n` both return the whole sequence with no out-of-bounds error;
however `"last:0"` returns the whole sequence (not the empty one). -/
theorem c1_first_last_window_amended (sk : List Char) (h1 : sk ≠ [])
    (h2 : sk.all isDigitChar = true) (units : List Verse) :
    parseVerseRange ⟨"first:".data ++ sk⟩ units = .ok (units.take (digitsToNat sk)) ∧
    (1 ≤ digitsToNat sk →
      parseVerseRange ⟨"last:".data ++ sk⟩ units =
        .ok (units.drop (units.length - digitsToNat sk))) ∧
    (units.length ≤ digitsToNat sk →
      parseVerseRange ⟨"first:".data ++ sk⟩ units = .ok units ∧
      parseVerseRange ⟨"last:".data ++ sk⟩ units = .ok units) ∧
    parseVerseRange "last:0" units = .ok units := by
  have hcolon : ':' ∉ sk := not_mem_of_all_digits h2 (by decide)
  have hint : jsParseInt sk = some ((digitsToNat sk : Int)) := jsParseInt_digits h1 h2
  have hfirst : parseVerseRange ⟨"first:".data ++ sk⟩ units =
      .ok (units.take (digitsToNat sk)) := by
    rw [parseVerseRange_colon_first sk hcolon units, hint, sliceFromZero_nat]
  have hlastz : parseVerseRange "last:0" units = .ok units := by
    rw [show ("last:0" : String) = ⟨"last:".data ++ ['0']⟩ from rfl,
      parseVerseRange_colon_last ['0'] (by decide) units,
      show jsParseInt ['0'] = some ((0 : Int)) from rfl, sliceNegFrom_zero]
  refine ⟨hfirst, ?_, ?_, hlastz⟩
  · intro hk
    rw [parseVerseRange_colon_last sk hcolon units, hint, sliceNegFrom_pos _ _ hk]
  · intro hn
    constructor
    · rw [hfirst, List.take_of_length_le hn]
    · rw [parseVerseRange_colon_last sk hcolon units, hint]
      rcases Nat.eq_zero_or_pos (digitsToNat sk) with hz | hp
      · rw [hz]
        exact congrArg Except.ok (sliceNegFrom_zero units)
      · rw [sliceNegFrom_pos _ _ hp, Nat.sub_eq_zero_of_le hn, List.drop_zero]

/-- C1 witness: `"last:2"` on a three-verse chapter returns the final two
verses. -/
theorem c1_first_last_window_amended_witness :
    (['2'] ≠ ([] : List Char)) ∧ (['2'].all isDigitChar = true) ∧
      (1 ≤ digitsToNat ['2']) ∧
      parseVerseRange ⟨"last:".data ++ ['2']⟩
          ([⟨1, "a"⟩, ⟨2, "b"⟩, ⟨3, "c"⟩] : List Verse) =
        .ok (([⟨1, "a"⟩, ⟨2, "b"⟩, ⟨3, "c"⟩] : List Verse).drop
          (([⟨1, "a"⟩, ⟨2, "b"⟩, ⟨3, "c"⟩] : List Verse).length - digitsToNat ['2'])) :=
  ⟨by decide, by decide, by decide,
    (c1_first_last_window_amended ['2'] (by decide) (by decide) _).2.1 (by decide)⟩

/-! ## Claim C2 -/

/-- C2 counterexample: for `a = -3`, `b = 5` the expression is `"-3-5"`; the
claim predicts the unit at position 1 is selected (`-3 ≤ 1 ≤ 5`), but the
split on `-` yields an empty start component, `parseInt` gives `NaN`, and the
filter selects nothing. -/
theorem c2_negative_endpoint_counterexample :
    parseVerseRange "-3-5" [⟨1, "a"⟩] = .ok [] ∧
      parseVerseRange "-3-5" [⟨1, "a"⟩] ≠ .ok [⟨1, "a"⟩] := by
  refine ⟨rfl, ?_⟩
  intro h
  rw [show parseVerseRange "-3-5" [⟨1, "a"⟩] = .ok [] from rfl] at h
  injection h with h'
  exact List.noConfusion h'

/-- C2 (amended): for nonnegative integers written as unsigned decimal
numerals `sa`, `sb` (the lexical form the range mini-language accepts),
`"a-b"` returns exactly the units `u` with `a ≤ u.position ≤ b` in original
order, `a > b` yields an empty success, and a bare numeral `n` returns
exactly the units with `position = n`. -/
theorem c2_interval_amended (sa sb : List Char) (ha1 : sa ≠ [])
    (ha2 : sa.all isDigitChar = true) (hb1 : sb ≠ [])
    (hb2 : sb.all isDigitChar = true) (units : List Verse) :
    parseVerseRange ⟨sa ++ '-' :: sb⟩ units =
      .ok (units.filter fun v =>
        decide ((digitsToNat sa : Int) ≤ v.verse) &&
          decide (v.verse ≤ (digitsToNat sb : Int))) ∧
    (digitsToNat sb < digitsToNat sa →
      parseVerseRange ⟨sa ++ '-' :: sb⟩ units = .ok []) ∧
    (∀ sn : List Char, sn ≠ [] → sn.all isDigitChar = true →
      parseVerseRange ⟨sn⟩ units =
        .ok (units.filter fun v => v.verse == (digitsToNat sn : Int))) := by
  have hmain : parseVerseRange ⟨sa ++ '-' :: sb⟩ units =
      .ok (units.filter fun v =>
        decide ((digitsToNat sa : Int) ≤ v.verse) &&
          decide (v.verse ≤ (digitsToNat sb : Int))) := by
    rw [parseVerseRange_hyphen sa sb
      (not_mem_of_all_digits ha2 (by decide)) (not_mem_of_all_digits hb2 (by decide))
      (not_mem_of_all_digits ha2 (by decide)) (not_mem_of_all_digits hb2 (by decide))
      units, jsParseInt_digits ha1 ha2, jsParseInt_digits hb1 hb2]
    rfl
  refine ⟨hmain, ?_, ?_⟩
  · intro hba
    rw [hmain]
    have : (units.filter fun v =>
        decide ((digitsToNat sa : Int) ≤ v.verse) &&
          decide (v.verse ≤ (digitsToNat sb : Int))) = [] := by
      apply List.filter_eq_nil_iff.mpr
      intro v _
      simp only [Bool.and_eq_true, decide_eq_true_eq, not_and]
      intro hle
      omega
    rw [this]
  · intro sn hn1 hn2
    rw [parseVerseRange_bare sn
      (not_mem_of_all_digits hn2 (by decide)) (not_mem_of_all_digits hn2 (by decide))
      units, jsParseInt_digits hn1 hn2]

/-- C2 witness: `"5-2"` (start greater than end) on a one-verse chapter is an
empty success. -/
theorem c2_interval_amended_witness :
    (['5'] ≠ ([] : List Char)) ∧ (['5'].all isDigitChar = true) ∧
      (['2'] ≠ ([] : List Char)) ∧ (['2'].all isDigitChar = true) ∧
      (digitsToNat ['2'] < digitsToNat ['5']) ∧
      parseVerseRange ⟨['5'] ++ '-' :: ['2']⟩ ([⟨1, "a"⟩] : List Verse) = .ok [] :=
  ⟨by decide, by decide, by decide, by decide, by decide,
    (c2_interval_amended ['5'] ['2'] (by decide) (by decide) (by decide) (by decide)
      _).2.1 (by decide)⟩

/-! ## Claim C3 -/

/-- Is an `Except` result an error? -/
def isErr {ε α : Type} : Except ε α → Bool
  | .error _ => true
  | .ok _ => false

/-- The lexical test actually applied by the colon branch: the expression
contains a `:` and the text before the first `:` is `first` or `last`. -/
def relativeFormHit (r : String) : Bool :=
  r.data.contains ':' &&
    ((splitOnChar ':' r.data).headD [] = "first".data ||
      (splitOnChar ':' r.data).headD [] = "last".data)

/-- C3 counterexample: the claim demands `InvalidRangeFormat` for `"first:x"`,
`"last:x"` and `"x-y"`; all three succeed — `"first:x"` returns the empty
sequence, `"last:x"` returns the whole sequence, `"x-y"` returns the empty
sequence — silently passing the `NaN` through. -/
theorem c3_nan_passthrough_counterexample :
    parseVerseRange "first:x" [⟨1, "a"⟩] = .ok [] ∧
    parseVerseRange "last:x" [⟨1, "a"⟩] = .ok [⟨1, "a"⟩] ∧
    parseVerseRange "x-y" [⟨1, "a"⟩] = .ok [] :=
  ⟨rfl, rfl, rfl⟩

/-- C3 (amended): `parseVerseRange` throws `InvalidRangeFormat` iff the
expression does not hit the `first:`/`last:` colon form, contains no hyphen
anywhere, and `parseInt` fails on the whole expression.  In particular a
`first:`/`last:` expression with a garbage count and any hyphen-containing
expression with garbage endpoints succeed silently (empty or whole-sequence
results) instead of failing. -/
theorem c3_invalid_format_amended (rangeStr : String) (units : List Verse) :
    isErr (parseVerseRange rangeStr units) =
      (!relativeFormHit rangeStr && !rangeStr.data.contains '-' &&
        (jsParseInt rangeStr.data).isNone) := by
  unfold parseVerseRange relativeFormHit
  cases hc : rangeStr.data.contains ':' with
  | true =>
    dsimp only
    by_cases hf : (splitOnChar ':' rangeStr.data).headD [] = "first".data
    · rw [if_pos hf, decide_eq_true hf]
      rfl
    · rw [if_neg hf, decide_eq_false hf]
      by_cases hl : (splitOnChar ':' rangeStr.data).headD [] = "last".data
      · rw [if_pos hl, decide_eq_true hl]
        rfl
      · rw [if_neg hl, decide_eq_false hl]
        cases hm : rangeStr.data.contains '-' with
        | true => rfl
        | false =>
          cases hp : jsParseInt rangeStr.data with
          | some n => rfl
          | none => rfl
  | false =>
    dsimp only
    cases hm : rangeStr.data.contains '-' with
    | true => rfl
    | false =>
      cases hp : jsParseInt rangeStr.data with
      | some n => rfl
      | none => rfl

/-! ## Claim C4 -/

/-- C4 counterexample: the claim predicts `"first:-1"` (count `-1 ≤ 0`)
returns the empty sequence; the code returns `slice(0, -1)`, i.e. all but
the last unit. -/
theorem c4_negative_count_counterexample :
    parseVerseRange "first:-1" [⟨1, "a"⟩, ⟨2, "b"⟩] = .ok [⟨1, "a"⟩] ∧
      parseVerseRange "first:-1" [⟨1, "a"⟩, ⟨2, "b"⟩] ≠ .ok [] := by
  refine ⟨rfl, ?_⟩
  intro h
  rw [show parseVerseRange "first:-1" [⟨1, "a"⟩, ⟨2, "b"⟩] = .ok [⟨1, "a"⟩] from rfl] at h
  injection h with h'
  exact List.noConfusion h'

/-- C4 (amended): `"first:0"` returns the empty sequence, but `"last:0"`
returns the whole sequence; and for a negative count `-m` (`m ≥ 1`),
`"first:-m"` returns all but the last `m` units while `"last:-m"` drops the
first `m` units — neither is the empty sequence the claim demands unless `m`
reaches the sequence length. -/
theorem c4_nonpositive_count_amended (units : List Verse) :
    parseVerseRange "first:0" units = .ok [] ∧
    parseVerseRange "last:0" units = .ok units ∧
    (∀ sm : List Char, sm ≠ [] → sm.all isDigitChar = true → 1 ≤ digitsToNat sm →
      parseVerseRange ⟨"first:".data ++ '-' :: sm⟩ units =
          .ok (units.take (units.length - digitsToNat sm)) ∧
        parseVerseRange ⟨"last:".data ++ '-' :: sm⟩ units =
          .ok (units.drop (digitsToNat sm))) := by
  refine ⟨?_, ?_, ?_⟩
  · rw [show ("first:0" : String) = ⟨"first:".data ++ ['0']⟩ from rfl,
      parseVerseRange_colon_first ['0'] (by decide) units,
      show jsParseInt ['0'] = some (((0 : Nat) : Int)) from rfl,
      sliceFromZero_nat units 0]
    rfl
  · rw [show ("last:0" : String) = ⟨"last:".data ++ ['0']⟩ from rfl,
      parseVerseRange_colon_last ['0'] (by decide) units,
      show jsParseInt ['0'] = some ((0 : Int)) from rfl, sliceNegFrom_zero]
  · intro sm hm1 hm2 hm3
    have hsk : ':' ∉ '-' :: sm := by
      intro hmem
      rcases List.mem_cons.mp hmem with h | h
      · exact absurd h (by decide)
      · exact not_mem_of_all_digits hm2 (by decide) h
    constructor
    · rw [parseVerseRange_colon_first _ hsk units, jsParseInt_neg_digits hm1 hm2,
        sliceFromZero_negInt _ _ hm3]
    · rw [parseVerseRange_colon_last _ hsk units, jsParseInt_neg_digits hm1 hm2,
        sliceNegFrom_negInt _ _ hm3]

/-- C4 witness: `"first:-2"` on a three-verse chapter keeps only the first
verse, and `"last:-2"` drops the first two. -/
theorem c4_nonpositive_count_amended_witness :
    (['2'] ≠ ([] : List Char)) ∧ (['2'].all isDigitChar = true) ∧
      (1 ≤ digitsToNat ['2']) ∧
      parseVerseRange ⟨"first:".data ++ '-' :: ['2']⟩
          ([⟨1, "a"⟩, ⟨2, "b"⟩, ⟨3, "c"⟩] : List Verse) =
        .ok (([⟨1, "a"⟩, ⟨2, "b"⟩, ⟨3, "c"⟩] : List Verse).take
          (([⟨1, "a"⟩, ⟨2, "b"⟩, ⟨3, "c"⟩] : List Verse).length - digitsToNat ['2'])) :=
  ⟨by decide, by decide, by decide,
    ((c4_nonpositive_count_amended _).2.2 ['2'] (by decide) (by decide) (by decide)).1⟩

/-! ## Claim C5 -/

/-- A chapter whose `n` verses carry 1-based, strictly contiguous positions
`1..n` and the given texts — the shape shared by scripture chapters and the
paragraph items `parseParagraphRange` builds. -/
def versesOf (ts : List String) : List Verse :=
  (indexFrom 1 ts).map (fun q => ⟨q.1, q.2⟩)

theorem map_pair_mk_verse (l : List (Int × String)) :
    (l.map fun q => (⟨q.1, q.2⟩ : Verse)).map (fun v => (v.verse, v.text)) = l := by
  induction l with
  | nil => rfl
  | cons a as ih => simp [ih]

theorem map_pair_mk_para (l : List (Int × String)) :
    (l.map fun q => (⟨q.1, q.2⟩ : ParaItem)).map
      (fun i => (i.paragraph, i.text)) = l := by
  induction l with
  | nil => rfl
  | cons a as ih => simp [ih]

theorem sliceFromZero_map {α β : Type} (f : α → β) (l : List α) (e : Option Int) :
    (sliceFromZero l e).map f = sliceFromZero (l.map f) e := by
  cases e with
  | none => rfl
  | some e =>
    simp only [sliceFromZero, List.length_map]
    split <;> simp [List.map_take]

theorem sliceNegFrom_map {α β : Type} (f : α → β) (l : List α) (c : Option Int) :
    (sliceNegFrom l c).map f = sliceNegFrom (l.map f) c := by
  cases c with
  | none => rfl
  | some c =>
    simp only [sliceNegFrom, List.length_map]
    split <;> simp [List.map_drop]

theorem map_comp_pair_verse (l : List (Int × String)) :
    l.map ((fun v => (v.verse, v.text)) ∘ fun q => (⟨q.1, q.2⟩ : Verse)) = l := by
  induction l with
  | nil => rfl
  | cons a as ih => simp [ih, Function.comp]

theorem map_comp_pair_para (l : List (Int × String)) :
    l.map ((fun i => (i.paragraph, i.text)) ∘ fun q => (⟨q.1, q.2⟩ : ParaItem)) = l := by
  induction l with
  | nil => rfl
  | cons a as ih => simp [ih, Function.comp]

/-- C5: on every 1-based contiguous sequence, the verse-range resolver and
the paragraph-range resolver select exactly the same positions (with the same
texts) in the same order, and the one succeeds precisely when the other does
(both failures being the invalid-format error). -/
theorem c5_verse_paragraph_equivalence (r : String) (ts : List String) :
    (parseVerseRange r (versesOf ts)).toOption.map
        (fun l => l.map fun v => (v.verse, v.text)) =
      (parseParagraphRange r ts).toOption.map
        (fun l => l.map fun i => (i.paragraph, i.text)) ∧
    (parseVerseRange r (versesOf ts)).toOption.isSome
      = (parseParagraphRange r ts).toOption.isSome := by
  have main : (parseVerseRange r (versesOf ts)).toOption.map
        (fun l => l.map fun v => (v.verse, v.text)) =
      (parseParagraphRange r ts).toOption.map
        (fun l => l.map fun i => (i.paragraph, i.text)) := by
    unfold parseVerseRange parseParagraphRange versesOf
    dsimp only
    cases hc : r.data.contains ':' with
    | true =>
      by_cases hf : (splitOnChar ':' r.data).headD [] = "first".data
      · rw [if_pos hf, if_pos hf]
        simp [Except.toOption, sliceFromZero_map, map_comp_pair_verse, map_comp_pair_para]
      · rw [if_neg hf, if_neg hf]
        by_cases hl : (splitOnChar ':' r.data).headD [] = "last".data
        · rw [if_pos hl, if_pos hl]
          simp [Except.toOption, sliceNegFrom_map, map_comp_pair_verse, map_comp_pair_para]
        · rw [if_neg hl, if_neg hl]
          cases hm : r.data.contains '-' with
          | true =>
            simp [Except.toOption, filter_map_comm, map_pair_mk_verse, map_pair_mk_para]
          | false =>
            cases hp : jsParseInt r.data with
            | some n =>
              simp [Except.toOption, filter_map_comm, map_pair_mk_verse, map_pair_mk_para]
            | none => simp [Except.toOption]
    | false =>
      cases hm : r.data.contains '-' with
      | true =>
        simp [Except.toOption, filter_map_comm, map_pair_mk_verse, map_pair_mk_para]
      | false =>
        cases hp : jsParseInt r.data with
        | some n =>
          simp [Except.toOption, filter_map_comm, map_pair_mk_verse, map_pair_mk_para]
        | none => simp [Except.toOption]
  refine ⟨main, ?_⟩
  have h := congrArg Option.isSome main
  simpa using h

/-! ## Search data model and searchScriptures (src lines 428-463) -/

/-- A verse as stored in the loaded scripture JSON. -/
structure SVerse where
  verse : Int
  reference : String
  text : String
deriving DecidableEq, Repr

/-- A chapter of the loaded scripture JSON. -/
structure SChapter where
  chapter : Int
  verses : List SVerse
deriving DecidableEq, Repr

/-- A book of the loaded scripture JSON. -/
structure SBook where
  book : String
  chapters : List SChapter
deriving DecidableEq, Repr

/-- `ScriptureCollectionData` from the source (`{ books: any[] }`). -/
structure ScriptureCollectionData where
  books : List SBook
deriving DecidableEq, Repr

/-- One entry of the `matches` array pushed by `searchScriptures`. -/
structure MatchRec where
  collection : String
  book : String
  chapter : Int
  verse : Int
  reference : String
  text : String
deriving DecidableEq, Repr

/-- The payload of the search response (`{ query, count, results }`). -/
structure SearchOut where
  query : String
  count : Nat
  results : List MatchRec
deriving DecidableEq, Repr

/-- `scriptureData[coll]` on the association list of loaded collections. -/
def lookupColl (sd : List (String × ScriptureCollectionData)) (coll : String) :
    Option ScriptureCollectionData :=
  (sd.find? (fun p => p.1 == coll)).map (fun p => p.2)

/-- The object literal pushed for a matching verse. -/
def mkMatchRec (coll bname : String) (chnum : Int) (v : SVerse) : MatchRec :=
  ⟨coll, bname, chnum, v.verse, v.reference, v.text⟩

/-- `chapter && ch.chapter !== chapter` — skip this chapter? -/
def skipChapter (chapterArg : Option Int) (chnum : Int) : Bool :=
  match chapterArg with
  | none => false
  | some c => c != 0 && chnum != c

/-- `book && b.book !== book` — skip this book? -/
def skipBook (bookArg : Option String) (bname : String) : Bool :=
  match bookArg with
  | none => false
  | some b => b != "" && bname != b

/-- Innermost loop of `searchScriptures`: scan the verses, push matches, and
signal an early `return` (the `Bool`) the moment
`matches.length >= maxResults` holds after a push. -/
def searchVersesGo (term coll bname : String) (chnum : Int) (maxResults : Int)
    (acc : List MatchRec) : List SVerse → List MatchRec × Bool
  | [] => (acc, false)
  | v :: vs =>
    if jsIncludes (jsToLower v.text) term then
      let acc2 := acc ++ [mkMatchRec coll bname chnum v]
      if maxResults ≤ (acc2.length : Int) then (acc2, true)
      else searchVersesGo term coll bname chnum maxResults acc2 vs
    else searchVersesGo term coll bname chnum maxResults acc vs

/-- Chapter loop of `searchScriptures`, propagating the early return. -/
def searchChaptersGo (term coll bname : String) (chapterArg : Option Int)
    (maxResults : Int) (acc : List MatchRec) :
    List SChapter → List MatchRec × Bool
  | [] => (acc, false)
  | ch :: chs =>
    if skipChapter chapterArg ch.chapter then
      searchChaptersGo term coll bname chapterArg maxResults acc chs
    else
      let r := searchVersesGo term coll bname ch.chapter maxResults acc ch.verses
      if r.2 then r
      else searchChaptersGo term coll bname chapterArg maxResults r.1 chs

/-- Book loop of `searchScriptures`. -/
def searchBooksGo (term coll : String) (bookArg : Option String)
    (chapterArg : Option Int) (maxResults : Int) (acc : List MatchRec) :
    List SBook → List MatchRec × Bool
  | [] => (acc, false)
  | b :: bs =>
    if skipBook bookArg b.book then
      searchBooksGo term coll bookArg chapterArg maxResults acc bs
    else
      let r := searchChaptersGo term coll b.book chapterArg maxResults acc b.chapters
      if r.2 then r
      else searchBooksGo term coll bookArg chapterArg maxResults r.1 bs

/-- Collection loop of `searchScriptures` (`if (!collData) continue`). -/
def searchCollsGo (term : String) (bookArg : Option String)
    (chapterArg : Option Int) (maxResults : Int)
    (sd : List (String × ScriptureCollectionData)) (acc : List MatchRec) :
    List String → List MatchRec × Bool
  | [] => (acc, false)
  | coll :: colls =>
    match lookupColl sd coll with
    | none => searchCollsGo term bookArg chapterArg maxResults sd acc colls
    | some cd =>
      let r := searchBooksGo term coll bookArg chapterArg maxResults acc cd.books
      if r.2 then r
      else searchCollsGo term bookArg chapterArg maxResults sd r.1 colls

/-- `searchScriptures(args, scriptureData)`: fail-fast scope validation, then
a collection → book → chapter → verse scan that returns as soon as
`maxResults` matches are collected.  The early return and the final return
build the same `{query, count: matches.length, results: matches}` payload, so
the model builds it once from the collected matches. -/
def searchScriptures (query : String) (collection book : Option String)
    (chapter : Option Int) (maxResults : Int)
    (sd : List (String × ScriptureCollectionData)) : Except String SearchOut :=
  if jsTruthyStr book && !jsTruthyStr collection then
    .error "If you specify a book you must also specify its collection."
  else if jsTruthyNum chapter && !(jsTruthyStr collection && jsTruthyStr book) then
    .error "If you specify a chapter you must also specify collection and book."
  else
    let term := jsToLower query
    let collectionsToSearch :=
      if jsTruthyStr collection then [collection.getD ""] else sd.map (fun p => p.1)
    let r := searchCollsGo term book chapter maxResults sd [] collectionsToSearch
    .ok ⟨query, r.1.length, r.1⟩

/-! ## The full (uncapped) match list, in traversal order -/

/-- All matches of a verse list, in order. -/
def verseMatchList (term coll bname : String) (chnum : Int) :
    List SVerse → List MatchRec
  | [] => []
  | v :: vs =>
    if jsIncludes (jsToLower v.text) term then
      mkMatchRec coll bname chnum v :: verseMatchList term coll bname chnum vs
    else verseMatchList term coll bname chnum vs

/-- All matches of a chapter list, in order. -/
def chapterMatchList (term coll bname : String) (chapterArg : Option Int) :
    List SChapter → List MatchRec
  | [] => []
  | ch :: chs =>
    (if skipChapter chapterArg ch.chapter then []
     else verseMatchList term coll bname ch.chapter ch.verses) ++
      chapterMatchList term coll bname chapterArg chs

/-- All matches of a book list, in order. -/
def bookMatchList (term coll : String) (bookArg : Option String)
    (chapterArg : Option Int) : List SBook → List MatchRec
  | [] => []
  | b :: bs =>
    (if skipBook bookArg b.book then []
     else chapterMatchList term coll b.book chapterArg b.chapters) ++
      bookMatchList term coll bookArg chapterArg bs

/-- All matches of a collection-name list, in order. -/
def collMatchList (term : String) (bookArg : Option String)
    (chapterArg : Option Int) (sd : List (String × ScriptureCollectionData)) :
    List String → List MatchRec
  | [] => []
  | coll :: colls =>
    (match lookupColl sd coll with
     | none => []
     | some cd => bookMatchList term coll bookArg chapterArg cd.books) ++
      collMatchList term bookArg chapterArg sd colls

/-- The full match list of a search request: the matches an uncapped
collection → book → chapter → verse traversal would produce, in that fixed
order. -/
def searchMatchList (query : String) (collection book : Option String)
    (chapter : Option Int) (sd : List (String × ScriptureCollectionData)) :
    List MatchRec :=
  collMatchList (jsToLower query) book chapter sd
    (if jsTruthyStr collection then [collection.getD ""] else sd.map (fun p => p.1))

/-! ## The capped traversal is the take-prefix of the full match list -/

theorem searchVersesGo_spec (term coll bname : String) (chnum : Int)
    (maxResults : Int) (vs : List SVerse) :
    ∀ acc : List MatchRec, (acc.length : Int) < maxResults →
      searchVersesGo term coll bname chnum maxResults acc vs =
        ((acc ++ verseMatchList term coll bname chnum vs).take maxResults.toNat,
          decide (maxResults ≤
            ((acc ++ verseMatchList term coll bname chnum vs).length : Int))) := by
  induction vs with
  | nil =>
    intro acc hacc
    simp only [searchVersesGo, verseMatchList, List.append_nil]
    rw [List.take_of_length_le (by omega), decide_eq_false (by omega)]
  | cons v vs ih =>
    intro acc hacc
    by_cases hm : jsIncludes (jsToLower v.text) term = true
    · simp only [searchVersesGo, verseMatchList, hm, if_true]
      by_cases hstop :
          maxResults ≤ ((acc ++ [mkMatchRec coll bname chnum v]).length : Int)
      · rw [if_pos hstop]
        have hlen : (acc ++ [mkMatchRec coll bname chnum v]).length
            = maxResults.toNat := by
          simp only [List.length_append, List.length_cons, List.length_nil] at hstop ⊢
          omega
        refine Prod.ext ?_ ?_
        · simp only []
          rw [show acc ++ mkMatchRec coll bname chnum v ::
                verseMatchList term coll bname chnum vs
              = (acc ++ [mkMatchRec coll bname chnum v]) ++
                verseMatchList term coll bname chnum vs by simp]
          rw [List.take_append_of_le_length (by omega), ← hlen, List.take_length]
        · simp only []
          symm
          rw [decide_eq_true]
          simp only [List.length_append, List.length_cons, List.length_nil] at hstop ⊢
          omega
      · rw [if_neg hstop]
        rw [ih _ (by simp only [List.length_append, List.length_cons,
          List.length_nil] at hstop ⊢; omega)]
        rw [show (acc ++ [mkMatchRec coll bname chnum v]) ++
              verseMatchList term coll bname chnum vs
            = acc ++ mkMatchRec coll bname chnum v ::
              verseMatchList term coll bname chnum vs by simp]
    · simp only [searchVersesGo, verseMatchList, hm, if_false, Bool.false_eq_true]
      exact ih acc hacc

theorem searchChaptersGo_spec (term coll bname : String) (chapterArg : Option Int)
    (maxResults : Int) (chs : List SChapter) :
    ∀ acc : List MatchRec, (acc.length : Int) < maxResults →
      searchChaptersGo term coll bname chapterArg maxResults acc chs =
        ((acc ++ chapterMatchList term coll bname chapterArg chs).take
            maxResults.toNat,
          decide (maxResults ≤
            ((acc ++ chapterMatchList term coll bname chapterArg chs).length :
              Int))) := by
  induction chs with
  | nil =>
    intro acc hacc
    simp only [searchChaptersGo, chapterMatchList, List.append_nil]
    rw [List.take_of_length_le (by omega), decide_eq_false (by omega)]
  | cons ch chs ih =>
    intro acc hacc
    by_cases hskip : skipChapter chapterArg ch.chapter = true
    · simp only [searchChaptersGo, chapterMatchList, hskip, if_true,
        List.nil_append]
      exact ih acc hacc
    · simp only [searchChaptersGo, chapterMatchList, hskip, if_false,
        Bool.false_eq_true]
      rw [searchVersesGo_spec term coll bname ch.chapter maxResults ch.verses acc
        hacc]
      by_cases hstop : maxResults ≤
          ((acc ++ verseMatchList term coll bname ch.chapter ch.verses).length :
            Int)
      · dsimp only
        rw [decide_eq_true hstop, if_pos rfl, ← List.append_assoc,
          @List.take_append_of_le_length _
            (acc ++ verseMatchList term coll bname ch.chapter ch.verses)
            (chapterMatchList term coll bname chapterArg chs) maxResults.toNat
            (by simp only [List.length_append] at hstop ⊢; omega),
          decide_eq_true
            (by simp only [List.length_append] at hstop ⊢; omega)]
      · dsimp only
        rw [decide_eq_false hstop, if_neg (by simp),
          List.take_of_length_le
            (by simp only [List.length_append] at hstop ⊢; omega),
          ih _ (by simp only [List.length_append] at hstop ⊢; omega),
          List.append_assoc]

theorem searchBooksGo_spec (term coll : String) (bookArg : Option String)
    (chapterArg : Option Int) (maxResults : Int) (bs : List SBook) :
    ∀ acc : List MatchRec, (acc.length : Int) < maxResults →
      searchBooksGo term coll bookArg chapterArg maxResults acc bs =
        ((acc ++ bookMatchList term coll bookArg chapterArg bs).take
            maxResults.toNat,
          decide (maxResults ≤
            ((acc ++ bookMatchList term coll bookArg chapterArg bs).length :
              Int))) := by
  induction bs with
  | nil =>
    intro acc hacc
    simp only [searchBooksGo, bookMatchList, List.append_nil]
    rw [List.take_of_length_le (by omega), decide_eq_false (by omega)]
  | cons b bs ih =>
    intro acc hacc
    by_cases hskip : skipBook bookArg b.book = true
    · simp only [searchBooksGo, bookMatchList, hskip, if_true, List.nil_append]
      exact ih acc hacc
    · simp only [searchBooksGo, bookMatchList, hskip, if_false, Bool.false_eq_true]
      rw [searchChaptersGo_spec term coll b.book chapterArg maxResults b.chapters
        acc hacc]
      by_cases hstop : maxResults ≤
          ((acc ++ chapterMatchList term coll b.book chapterArg b.chapters).length :
            Int)
      · dsimp only
        rw [decide_eq_true hstop, if_pos rfl, ← List.append_assoc,
          @List.take_append_of_le_length _
            (acc ++ chapterMatchList term coll b.book chapterArg b.chapters)
            (bookMatchList term coll bookArg chapterArg bs) maxResults.toNat
            (by simp only [List.length_append] at hstop ⊢; omega),
          decide_eq_true
            (by simp only [List.length_append] at hstop ⊢; omega)]
      · dsimp only
        rw [decide_eq_false hstop, if_neg (by simp),
          List.take_of_length_le
            (by simp only [List.length_append] at hstop ⊢; omega),
          ih _ (by simp only [List.length_append] at hstop ⊢; omega),
          List.append_assoc]

theorem searchCollsGo_spec (term : String) (bookArg : Option String)
    (chapterArg : Option Int) (maxResults : Int)
    (sd : List (String × ScriptureCollectionData)) (colls : List String) :
    ∀ acc : List MatchRec, (acc.length : Int) < maxResults →
      searchCollsGo term bookArg chapterArg maxResults sd acc colls =
        ((acc ++ collMatchList term bookArg chapterArg sd colls).take
            maxResults.toNat,
          decide (maxResults ≤
            ((acc ++ collMatchList term bookArg chapterArg sd colls).length :
              Int))) := by
  induction colls with
  | nil =>
    intro acc hacc
    simp only [searchCollsGo, collMatchList, List.append_nil]
    rw [List.take_of_length_le (by omega), decide_eq_false (by omega)]
  | cons coll colls ih =>
    intro acc hacc
    cases hcd : lookupColl sd coll with
    | none =>
      simp only [searchCollsGo, collMatchList, hcd, List.nil_append]
      exact ih acc hacc
    | some cd =>
      simp only [searchCollsGo, collMatchList, hcd]
      rw [searchBooksGo_spec term coll bookArg chapterArg maxResults cd.books acc
        hacc]
      by_cases hstop : maxResults ≤
          ((acc ++ bookMatchList term coll bookArg chapterArg cd.books).length :
            Int)
      · dsimp only
        rw [decide_eq_true hstop, if_pos rfl, ← List.append_assoc,
          @List.take_append_of_le_length _
            (acc ++ bookMatchList term coll bookArg chapterArg cd.books)
            (collMatchList term bookArg chapterArg sd colls) maxResults.toNat
            (by simp only [List.length_append] at hstop ⊢; omega),
          decide_eq_true
            (by simp only [List.length_append] at hstop ⊢; omega)]
      · dsimp only
        rw [decide_eq_false hstop, if_neg (by simp),
          List.take_of_length_le
            (by simp only [List.length_append] at hstop ⊢; omega),
          ih _ (by simp only [List.length_append] at hstop ⊢; omega),
          List.append_assoc]

/-! ## Claim C6 -/

/-- C6: for every query, corpus and positive limit (and a scope that passes
validation), the search returns exactly the first `maxResults` entries of the
full traversal-order (collection → book → chapter → verse) match list — the
embedded loops stop as soon as the cap is reached — and the reported `count`
equals the number of returned matches, not the total beyond the cap. -/
theorem c6_search_cap (query : String) (collection book : Option String)
    (chapter : Option Int) (maxResults : Int)
    (sd : List (String × ScriptureCollectionData))
    (hb : jsTruthyStr book = true → jsTruthyStr collection = true)
    (hc : jsTruthyNum chapter = true →
      jsTruthyStr collection = true ∧ jsTruthyStr book = true)
    (hm : 1 ≤ maxResults) :
    ∃ r : List MatchRec,
      searchScriptures query collection book chapter maxResults sd =
          .ok ⟨query, r.length, r⟩ ∧
        r = (searchMatchList query collection book chapter sd).take
          maxResults.toNat ∧
        (r.length : Int) ≤ maxResults := by
  have hg1 : (jsTruthyStr book && !jsTruthyStr collection) = false := by
    cases hbb : jsTruthyStr book with
    | false => rfl
    | true => rw [hb hbb]; rfl
  have hg2 : (jsTruthyNum chapter &&
      !(jsTruthyStr collection && jsTruthyStr book)) = false := by
    cases hcc : jsTruthyNum chapter with
    | false => rfl
    | true =>
      obtain ⟨h1, h2⟩ := hc hcc
      rw [h1, h2]; rfl
  refine ⟨(searchMatchList query collection book chapter sd).take maxResults.toNat,
    ?_, rfl, ?_⟩
  · unfold searchScriptures searchMatchList
    rw [hg1, if_neg (by simp), hg2, if_neg (by simp)]
    dsimp only
    rw [searchCollsGo_spec (jsToLower query) book chapter maxResults sd
      (if jsTruthyStr collection then [collection.getD ""]
       else sd.map (fun p => p.1)) [] (by simpa using hm)]
    simp only [List.nil_append]
  · simp only [List.length_take]
    omega

/-- The one-collection sample corpus used by the search witnesses. -/
def sampleSD : List (String × ScriptureCollectionData) :=
  [("book-of-mormon",
    ⟨[⟨"Alma", [⟨32, [⟨21, "Alma 32:21", "faith is not to have a perfect knowledge"⟩]⟩]⟩]⟩)]

/-- C6 witness: an unscoped one-match search with limit 1 on the sample
corpus. -/
theorem c6_search_cap_witness :
    (1 ≤ (1 : Int)) ∧
      ∃ r : List MatchRec,
        searchScriptures "faith" none none none 1 sampleSD =
            .ok ⟨"faith", r.length, r⟩ ∧
          r = (searchMatchList "faith" none none none sampleSD).take
            (1 : Int).toNat ∧
          (r.length : Int) ≤ 1 :=
  ⟨by decide,
    c6_search_cap "faith" none none none 1 sampleSD (fun h => by exact h)
      (fun h => absurd h (by decide)) (by decide)⟩

/-! ## Claim C7 -/

theorem startsWithSeq_iff (pat l : List Char) :
    startsWithSeq pat l = true ↔ ∃ post, l = pat ++ post := by
  induction pat generalizing l with
  | nil => simp [startsWithSeq]
  | cons a as ih =>
    cases l with
    | nil => simp [startsWithSeq]
    | cons b bs =>
      simp only [startsWithSeq, Bool.and_eq_true, decide_eq_true_eq, ih,
        List.cons_append, List.cons.injEq]
      constructor
      · rintro ⟨rfl, post, rfl⟩
        exact ⟨post, rfl, rfl⟩
      · rintro ⟨post, rfl, rfl⟩
        exact ⟨rfl, post, rfl⟩

theorem containsSeq_iff (l pat : List Char) :
    containsSeq l pat = true ↔ ∃ pre post, l = pre ++ pat ++ post := by
  induction l with
  | nil =>
    simp only [containsSeq, List.isEmpty_iff]
    constructor
    · rintro rfl
      exact ⟨[], [], rfl⟩
    · rintro ⟨pre, post, hp⟩
      rcases List.append_eq_nil.mp hp.symm with ⟨h1, h2⟩
      exact (List.append_eq_nil.mp h1).2
  | cons c tl ih =>
    simp only [containsSeq, Bool.or_eq_true, startsWithSeq_iff, ih]
    constructor
    · rintro (⟨post, hp⟩ | ⟨pre, post, hp⟩)
      · exact ⟨[], post, by simpa using hp⟩
      · exact ⟨c :: pre, post, by simp [hp]⟩
    · rintro ⟨pre, post, hp⟩
      cases pre with
      | nil =>
        exact Or.inl ⟨post, by simpa using hp⟩
      | cons x xs =>
        right
        rw [List.cons_append, List.cons_append] at hp
        injection hp with h1 h2
        exact ⟨xs, post, h2⟩

/-- C7: search is case-insensitive — two queries equal after case folding
yield identical result lists over any corpus, scope and limit (the response
differs only in the echoed raw query); and a unit matches precisely when its
lower-cased text contains the lower-cased query as a contiguous substring. -/
theorem c7_case_insensitive (q1 q2 : String) (h : jsToLower q1 = jsToLower q2)
    (collection book : Option String) (chapter : Option Int) (maxResults : Int)
    (sd : List (String × ScriptureCollectionData)) (v : SVerse)
    (coll bname : String) (chnum : Int) :
    (searchScriptures q1 collection book chapter maxResults sd).map
        SearchOut.results =
      (searchScriptures q2 collection book chapter maxResults sd).map
        SearchOut.results ∧
    (verseMatchList (jsToLower q1) coll bname chnum [v] ≠ [] ↔
      ∃ pre post, (jsToLower v.text).data = pre ++ (jsToLower q1).data ++ post) := by
  constructor
  · unfold searchScriptures
    cases hg1 : (jsTruthyStr book && !jsTruthyStr collection) with
    | true => rfl
    | false =>
      cases hg2 : (jsTruthyNum chapter &&
          !(jsTruthyStr collection && jsTruthyStr book)) with
      | true => rfl
      | false =>
        dsimp only
        rw [h]
        rfl
  · have hinc : jsIncludes (jsToLower v.text) (jsToLower q1) = true ↔
        ∃ pre post, (jsToLower v.text).data = pre ++ (jsToLower q1).data ++ post :=
      containsSeq_iff _ _
    simp only [verseMatchList]
    by_cases hm2 : jsIncludes (jsToLower v.text) (jsToLower q1) = true
    · rw [if_pos hm2]
      exact iff_of_true (by simp) (hinc.mp hm2)
    · rw [if_neg hm2]
      exact iff_of_false (by simp) (fun hex => hm2 (hinc.mpr hex))

/-- C7 witness: `"FAITH"` and `"faith"` give the same results on the sample
corpus, and the sample verse matches since its folded text contains
`"faith"`. -/
theorem c7_case_insensitive_witness :
    jsToLower "FAITH" = jsToLower "faith" ∧
      ((searchScriptures "FAITH" none none none 25 sampleSD).map
          SearchOut.results =
        (searchScriptures "faith" none none none 25 sampleSD).map
          SearchOut.results) :=
  ⟨by decide,
    (c7_case_insensitive "FAITH" "faith" (by decide) none none none 25 sampleSD
      ⟨1, "r", "t"⟩ "c" "b" 1).1⟩

/-! ## Claim C8 -/

/-- C8: supplying a (truthy) book scope without a collection fails with the
book-scope error, and supplying a (truthy) chapter scope without both
collection and book fails with one of the two scope errors — for every
corpus, i.e. before any traversal and with no partial results. -/
theorem c8_invalid_scope (query : String) (collection book : Option String)
    (chapter : Option Int) (maxResults : Int)
    (sd : List (String × ScriptureCollectionData)) :
    (jsTruthyStr book = true → jsTruthyStr collection = false →
      searchScriptures query collection book chapter maxResults sd =
        .error "If you specify a book you must also specify its collection.") ∧
    (jsTruthyNum chapter = true →
      ¬(jsTruthyStr collection = true ∧ jsTruthyStr book = true) →
      (searchScriptures query collection book chapter maxResults sd =
          .error "If you specify a book you must also specify its collection." ∨
        searchScriptures query collection book chapter maxResults sd =
          .error
            "If you specify a chapter you must also specify collection and book.")) := by
  constructor
  · intro hb hcoll
    unfold searchScriptures
    rw [hb, hcoll]
    rfl
  · intro hch hnot
    unfold searchScriptures
    rw [hch]
    cases hbk : jsTruthyStr book with
    | true =>
      have hcoll : jsTruthyStr collection = false := by
        cases hcoll : jsTruthyStr collection with
        | false => rfl
        | true => exact absurd ⟨hcoll, hbk⟩ hnot
      rw [hcoll]
      left; rfl
    | false =>
      right
      cases hcoll : jsTruthyStr collection with
      | true => rfl
      | false => rfl

/-- C8 witness: `book = "Alma"` with no collection fails with the scope
error on the sample corpus. -/
theorem c8_invalid_scope_witness :
    jsTruthyStr (some "Alma") = true ∧ jsTruthyStr none = false ∧
      searchScriptures "faith" none (some "Alma") none 25 sampleSD =
        .error "If you specify a book you must also specify its collection." :=
  ⟨by decide, by decide,
    (c8_invalid_scope "faith" none (some "Alma") none 25 sampleSD).1 (by decide)
      (by decide)⟩

/-! ## Conference talks: normalize, tiered lookup, getConferenceTalk
(src lines 515-576) -/

/-- Replace each maximal run of characters satisfying `bad` by a single
`rep` — the effect of `String.prototype.replace(/X+/g, rep)` for a character
class `X`. -/
def collapseRuns (bad : Char → Bool) (rep : Char) : List Char → Bool → List Char
  | [], _ => []
  | c :: cs, inRun =>
    if bad c then
      if inRun then collapseRuns bad rep cs true
      else rep :: collapseRuns bad rep cs true
    else c :: collapseRuns bad rep cs false

/-- `String.prototype.trim()`: strip ECMAScript whitespace at both ends. -/
def trimChars (l : List Char) : List Char :=
  ((l.dropWhile jsWhitespace).reverse.dropWhile jsWhitespace).reverse

/-- ASCII lower-case letter test. -/
def isLowerAZ (c : Char) : Bool := 97 ≤ c.toNat && c.toNat ≤ 122

/-- The characters of the regex class `[“”"']` (quote normalization). -/
def isQuoteLike (c : Char) : Bool :=
  c.toNat = 8220 || c.toNat = 8221 || c.toNat = 34 || c.toNat = 39

/-- The regex class `[a-z0-9"\s]` — what the punctuation strip keeps. -/
def normKeep (c : Char) : Bool :=
  isLowerAZ c || isDigitChar c || c.toNat = 34 || jsWhitespace c

/-- The `normalize` helper of `getConferenceTalk`: lower-case, map the quote
characters to `"`, replace runs of other punctuation by one space, collapse
whitespace runs, and trim. -/
def normalizeTitle (s : String) : String :=
  let l1 := s.data.map Char.toLower
  let l2 := l1.map (fun c => if isQuoteLike c then '"' else c)
  let l3 := collapseRuns (fun c => !normKeep c) ' ' l2 false
  let l4 := collapseRuns jsWhitespace ' ' l3 false
  ⟨trimChars l4⟩

/-- `ConferenceTalkMeta` from the source. -/
structure Talk where
  speaker : String
  title : String
  description : Option String
  body : List String
  audio : Option String
  pdf : Option String
  link : Option String
  session : String
  slug : String
deriving DecidableEq, Repr

/-- The three response shapes of `getConferenceTalk`. -/
inductive ConfOut where
  | paragraphOut (session title speaker : String) (paragraph : Int) (text : String)
  | rangeOut (session title speaker : String) (paragraphs : List ParaItem)
  | fullOut (session title speaker : String) (description : Option String)
      (paragraphs : List ParaItem) (audio pdf link : Option String)
deriving DecidableEq, Repr

/-- The inline talk lookup of `getConferenceTalk` (src lines 527-543): slug
match, then exact title, then normalized-title equality, then
normalized-title containment. -/
def findTalkTiered (talks : List Talk) (title slug : Option String) :
    Option Talk :=
  let t1 := if jsTruthyStr slug then talks.find? (fun t => t.slug == slug.getD "")
    else none
  match t1 with
  | some t => some t
  | none =>
    if jsTruthyStr title then
      match talks.find? (fun t => t.title == title.getD "") with
      | some t => some t
      | none =>
        match talks.find? (fun t => normalizeTitle t.title == normalizeTitle (title.getD "")) with
        | some t => some t
        | none =>
          talks.find? (fun t => jsIncludes (normalizeTitle t.title) (normalizeTitle (title.getD "")))
    else none

/-- Tier 1 of the claimed lookup order: exact slug. -/
def slugTier (talks : List Talk) (slug : Option String) : Option Talk :=
  if jsTruthyStr slug then talks.find? (fun t => t.slug == slug.getD "") else none

/-- Tier 2: exact title. -/
def exactTitleTier (talks : List Talk) (title : Option String) : Option Talk :=
  if jsTruthyStr title then talks.find? (fun t => t.title == title.getD "")
  else none

/-- Tier 3: normalized-title exact equality. -/
def normTitleTier (talks : List Talk) (title : Option String) : Option Talk :=
  if jsTruthyStr title then
    talks.find? (fun t => normalizeTitle t.title == normalizeTitle (title.getD ""))
  else none

/-- Tier 4: normalized-title containment. -/
def containsTitleTier (talks : List Talk) (title : Option String) : Option Talk :=
  if jsTruthyStr title then
    talks.find? (fun t => jsIncludes (normalizeTitle t.title) (normalizeTitle (title.getD "")))
  else none

/-- A single-quote character as a string. -/
def sqChar : String := ⟨[Char.ofNat 39]⟩

/-- JavaScript `x || ''` on an optional string. -/
def jsOrEmpty (o : Option String) : String :=
  if jsTruthyStr o then o.getD "" else ""

/-- The `Talk not found` message, carrying the attempted lookup keys. -/
def talkNotFoundMsg (session : String) (title slug : Option String) : String :=
  "Talk not found in " ++ session ++ ". Provided title=" ++ sqChar ++
    jsOrEmpty title ++ sqChar ++ " slug=" ++ sqChar ++ jsOrEmpty slug ++ sqChar ++
    ". Use list_conference_talks to enumerate."

/-- `getConferenceTalk(args, conferenceData)`: session lookup, tiered talk
lookup, then the single-paragraph / paragraph-range / full-talk response. -/
def getConferenceTalk (session : String) (title slug : Option String)
    (paragraph : Option Int) (paragraphRange : Option String)
    (sessions : List (String × List Talk)) : Except String ConfOut :=
  match (sessions.find? (fun p => p.1 == session)).map (fun p => p.2) with
  | none => .error ("Session not found: " ++ session)
  | some talks =>
    match findTalkTiered talks title slug with
    | none => .error (talkNotFoundMsg session title slug)
    | some talk =>
      if jsTruthyNum paragraph then
        let p := paragraph.getD 0
        if p < 1 ∨ (talk.body.length : Int) < p then
          .error ("Paragraph out of range 1-" ++ toString talk.body.length)
        else
          .ok (.paragraphOut talk.session talk.title talk.speaker p
            ((talk.body.get? (p - 1).toNat).getD ""))
      else if jsTruthyStr paragraphRange then
        match parseParagraphRange (paragraphRange.getD "") talk.body with
        | .error e => .error e
        | .ok sel => .ok (.rangeOut talk.session talk.title talk.speaker sel)
      else
        .ok (.fullOut talk.session talk.title talk.speaker talk.description
          ((indexFrom 1 talk.body).map (fun q => ⟨q.1, q.2⟩)) talk.audio talk.pdf
          talk.link)

/-! ## Claim C9 -/

/-- C9: the talk lookup tries exactly the four tiers — slug, exact title,
normalized-title equality, normalized-title containment — in that order,
returning the first tier that hits (each tier returning its first match in
session order); and when every tier misses, `getConferenceTalk` fails with
the `Talk not found` error carrying the attempted title and slug keys. -/
theorem c9_lookup_tiers (talks : List Talk) (title slug : Option String) :
    findTalkTiered talks title slug =
      ((slugTier talks slug).orElse (fun _ =>
        (exactTitleTier talks title).orElse (fun _ =>
          (normTitleTier talks title).orElse (fun _ =>
            containsTitleTier talks title)))) ∧
    (findTalkTiered talks title slug = none →
      ∀ (session : String) (paragraph : Option Int)
        (paragraphRange : Option String)
        (sessions : List (String × List Talk)),
        (sessions.find? (fun p => p.1 == session)).map (fun p => p.2) =
            some talks →
        getConferenceTalk session title slug paragraph paragraphRange sessions =
          .error (talkNotFoundMsg session title slug)) := by
  constructor
  · unfold findTalkTiered slugTier exactTitleTier normTitleTier containsTitleTier
    by_cases hs : jsTruthyStr slug = true
    · rw [if_pos hs]
      cases hf1 : talks.find? (fun t => t.slug == slug.getD "") with
      | some t => rfl
      | none =>
        by_cases ht : jsTruthyStr title = true
        · rw [if_pos ht, if_pos ht, if_pos ht, if_pos ht]
          cases hf2 : talks.find? (fun t => t.title == title.getD "") with
          | some t => rfl
          | none =>
            cases hf3 : talks.find?
                (fun t => normalizeTitle t.title == normalizeTitle (title.getD "")) with
            | some t => rfl
            | none => rfl
        · rw [if_neg ht, if_neg ht, if_neg ht, if_neg ht]
          rfl
    · rw [if_neg hs]
      by_cases ht : jsTruthyStr title = true
      · rw [if_pos ht, if_pos ht, if_pos ht, if_pos ht]
        cases hf2 : talks.find? (fun t => t.title == title.getD "") with
        | some t => rfl
        | none =>
          cases hf3 : talks.find?
              (fun t => normalizeTitle t.title == normalizeTitle (title.getD "")) with
          | some t => rfl
          | none => rfl
      · rw [if_neg ht, if_neg ht, if_neg ht, if_neg ht]
        rfl
  · intro hnone session paragraph paragraphRange sessions hsess
    unfold getConferenceTalk
    rw [hsess]
    dsimp only
    rw [hnone]

/-- The sample talk used by the C9 witness: its title normalizes to a quoted
phrase, so a plain-text title only hits the containment tier. -/
def sampleTalk : Talk :=
  ⟨"Speaker", "“Be Not Afraid”", none, ["p1"], none, none, none, "1971-04",
    "be-not-afraid"⟩

/-- C9 witness: a title matching no tier produces the `Talk not found`
error. -/
theorem c9_lookup_tiers_witness :
    findTalkTiered [sampleTalk] (some "zzz") none = none ∧
      (([("1971-04", [sampleTalk])].find?
          (fun p => p.1 == "1971-04")).map (fun p => p.2) = some [sampleTalk]) ∧
      getConferenceTalk "1971-04" (some "zzz") none none none
          [("1971-04", [sampleTalk])] =
        .error (talkNotFoundMsg "1971-04" (some "zzz") none) :=
  ⟨by decide, by decide,
    (c9_lookup_tiers [sampleTalk] (some "zzz") none).2 (by decide) "1971-04"
      none none [("1971-04", [sampleTalk])] (by decide)⟩

/-! ## getScripture of the web-scraping revision (src lines 1047-1114) -/

/-- The result object of the scraped `get_scripture` (the fields the verse
branches set; `verse` is the echoed verse number of the single-verse
branch). -/
structure GsOut where
  reference : String
  url : String
  language : String
  chapterTitle : String
  verses : List Verse
  text : Option String
  verse : Option Int
deriving DecidableEq, Repr

/-- `getScripture(args)` of the web-scraping revision.  The fetch/scrape is
the out-of-scope collaborator: the scraped chapter arrives as `allVerses`,
and `url`/`chapterTitle` arrive precomputed.  Everything thrown inside the
`try` — the verse-not-found error, the range-format error, and the
`TypeError` raised by reading `.verse` on `verses[0]` when the resolved
range is empty — is caught and re-thrown as `Error fetching scripture:`. -/
def getScripture (collection book : String) (chapter : Int) (verse : Option Int)
    (verseRange : Option String) (language url chapterTitle : String)
    (allVerses : List Verse) : Except String GsOut :=
  let ref := collection ++ " " ++ book ++ " " ++ toString chapter
  let inner : Except String GsOut :=
    if jsTruthyNum verse then
      let v := verse.getD 0
      match allVerses.find? (fun x => x.verse == v) with
      | none =>
        .error ("Verse " ++ toString v ++ " not found in " ++ collection ++
          " " ++ book ++ " " ++ toString chapter)
      | some fv =>
        .ok ⟨ref ++ ":" ++ toString v, url, language, chapterTitle, [],
          some fv.text, some v⟩
    else if jsTruthyStr verseRange then
      match parseVerseRange (verseRange.getD "") allVerses with
      | .error e => .error e
      | .ok verses =>
        match verses with
        | [] =>
          .error ("TypeError: Cannot read properties of undefined (reading " ++
            sqChar ++ "verse" ++ sqChar ++ ")")
        | v0 :: rest =>
          .ok ⟨ref ++ ":" ++ toString v0.verse ++ "-" ++
              toString ((v0 :: rest).getLastD v0).verse,
            url, language, chapterTitle, v0 :: rest, none, none⟩
    else
      .ok ⟨ref, url, language, chapterTitle, allVerses, none, none⟩
  inner.mapError (fun m => "Error fetching scripture: " ++ m)

/-! ## Claim C10 -/

/-- C10: with a verse range supplied (and no single verse), a non-empty
resolved range produces a success whose reference is built from the first
and last resolved verses; an empty resolved range (e.g. `"5-3"`, or a range
matching no verses) is not an empty success — the unguarded `verses[0].verse`
fails and the call returns an error. -/
theorem c10_empty_range_errors (collection book language url chapterTitle :
      String) (chapter : Int) (verseRange : String) (hvr : verseRange ≠ "")
    (allVerses : List Verse) :
    (∀ v0 rest, parseVerseRange verseRange allVerses = .ok (v0 :: rest) →
      getScripture collection book chapter none (some verseRange) language url
          chapterTitle allVerses =
        .ok ⟨collection ++ " " ++ book ++ " " ++ toString chapter ++ ":" ++
            toString v0.verse ++ "-" ++ toString ((v0 :: rest).getLastD v0).verse,
          url, language, chapterTitle, v0 :: rest, none, none⟩) ∧
    (parseVerseRange verseRange allVerses = .ok [] →
      ∃ msg, getScripture collection book chapter none (some verseRange)
          language url chapterTitle allVerses = .error msg) := by
  have htr : jsTruthyStr (some verseRange) = true := by
    simp [jsTruthyStr, hvr]
  constructor
  · intro v0 rest hp
    unfold getScripture
    dsimp only
    rw [if_neg (by decide), if_pos htr, show (some verseRange).getD "" = verseRange
      from rfl, hp]
    rfl
  · intro hp
    refine ⟨"Error fetching scripture: " ++
      ("TypeError: Cannot read properties of undefined (reading " ++
        sqChar ++ "verse" ++ sqChar ++ ")"), ?_⟩
    unfold getScripture
    dsimp only
    rw [if_neg (by decide), if_pos htr, show (some verseRange).getD "" = verseRange
      from rfl, hp]
    rfl

/-- C10 witness: `"5-3"` resolves to the empty range on a one-verse chapter,
and the call errors instead of returning an empty success. -/
theorem c10_empty_range_errors_witness :
    (("5-3" : String) ≠ "") ∧
      parseVerseRange "5-3" [⟨1, "a"⟩] = .ok [] ∧
      ∃ msg, getScripture "book-of-mormon" "alma" 30 none (some "5-3") "eng"
          "u" "t" [⟨1, "a"⟩] = .error msg :=
  ⟨by decide, rfl,
    (c10_empty_range_errors "book-of-mormon" "alma" "eng" "u" "t" 30 "5-3"
      (by decide) [⟨1, "a"⟩]).2 rfl⟩
